import Mathlib

/-!
Verification development for the where2work application (src/app.py).

The file shallowly embeds the core of the program: the band classifier and
filter pipeline (apply_filters), the partition of the filtered rows into
shortlist and pool (main), the jitter layout of create_bubble_chart, and the
click handler of create_bubble_chart.  Machine floats are modelled as
rationals; the numpy random stream and the trigonometric functions are
modelled as explicit parameters (a deterministic value stream indexed by seed
and position, and a pair of functions bounded by 1), so that every statement
about the layout is explicit about which properties of the draws it uses.
-/

/-- Python str.strip with no argument: remove leading and trailing
whitespace (as in app.py lines 95 and 288). -/
def pyStrip (s : String) : String :=
  ⟨(((s.data.dropWhile Char.isWhitespace).reverse.dropWhile Char.isWhitespace).reverse)⟩

/-- Python s.split()[0]: the first maximal whitespace-free token of s
(app.py line 101: standard_band.split()[0]). -/
def leadingToken (s : String) : String :=
  ⟨(s.data.dropWhile Char.isWhitespace).takeWhile (fun c => ¬ c.isWhitespace)⟩

/-- needle occurs at the start of hay. -/
def startsWithB : List Char → List Char → Bool
  | [], _ => true
  | _ :: _, [] => false
  | a :: as, b :: bs => a == b && startsWithB as bs

/-- Python substring test: needle in hay (contiguous occurrence). -/
def substrB (needle hay : List Char) : Bool :=
  (List.range (hay.length + 1)).any (fun i => startsWithB needle (hay.drop i))

/-- The three characters that the source file stores between the numerals of
each band label (bytes C3 A2, E2 82 AC, E2 80 9C: a double-encoded en dash). -/
def mojidash : String :=
  ⟨[Char.ofNat 226, Char.ofNat 8364, Char.ofNat 8220]⟩

/-- create_employee_band_order (app.py lines 59-70). -/
def band_order : List String :=
  ["1" ++ mojidash ++ "5 Employees",
   "6" ++ mojidash ++ "19 Employees",
   "20" ++ mojidash ++ "49 Employees"]

/-- The substring test of app.py line 101 / 294:
standard_band.split()[0] in unique_band. -/
def tokenSub (standard_band unique_band : String) : Bool :=
  substrB (leadingToken standard_band).data unique_band.data

/-- The band_mapping loop of app.py lines 98-105 / 291-298, expressed as the
value band_mapping assigns to one cleaned label: first band of band_order
whose leading token occurs in the label, else the label itself. -/
def classifyBand (clean : String) : String :=
  (band_order.find? (fun standard_band => tokenSub standard_band clean)).getD clean

/-- One row of the company CSV (the required columns of load_company_data). -/
structure Company where
  entity_Legal_Name : String
  entity_Type : String
  headquarters_Location : String
  estimated_Employee_Band : String
  estimated_Employee_Band_Code : String
  primary_ANZSIC_Code : String
deriving DecidableEq

/-- Row of apply_filters output: the company together with the derived
columns Employee_Band_Clean and Employee_Band_Standard (app.py 288-300). -/
structure FilterRow where
  company : Company
  employee_Band_Clean : String
  employee_Band_Standard : String
deriving DecidableEq

/-- The derivation of the two band columns for one row (app.py 288-300). -/
def augmentRow (c : Company) : FilterRow :=
  ⟨c, pyStrip c.estimated_Employee_Band,
   classifyBand (pyStrip c.estimated_Employee_Band)⟩

/-- apply_filters (app.py lines 271-311): derive the band columns, then
apply each non-empty selection as a membership filter, in source order. -/
def apply_filters (df : List Company)
    (locations employee_bands anzsic_codes : List String) : List FilterRow :=
  let rows0 := df.map augmentRow
  let rows1 := if locations.isEmpty then rows0 else
    rows0.filter (fun a => locations.contains a.company.headquarters_Location)
  let rows2 := if employee_bands.isEmpty then rows1 else
    rows1.filter (fun a => employee_bands.contains a.employee_Band_Standard)
  if anzsic_codes.isEmpty then rows2 else
    rows2.filter (fun a => anzsic_codes.contains a.company.primary_ANZSIC_Code)

/-- The selection-set update of the click handler (app.py lines 260-266):
in the all-companies chart add the clicked name, in the shortlist chart
remove it if present. -/
def on_marker_click (is_rejected : Bool) (clicked_company : String)
    (S : Finset String) : Finset String :=
  if is_rejected then insert clicked_company S
  else if clicked_company ∈ S then S.erase clicked_company else S

/-- The split of the filtered rows into shortlist and pool
(app.py lines 398-399). -/
def partitionShortlist (filtered : List FilterRow) (S : Finset String) :
    List FilterRow × List FilterRow :=
  (filtered.filter (fun r => decide (r.company.entity_Legal_Name ∈ S)),
   filtered.filter (fun r => decide (r.company.entity_Legal_Name ∉ S)))

/-- The numpy global random stream, modelled as an abstract deterministic
value function: value seed pos is the pos-th uniform(0,1) variate produced
after np.random.seed(seed). -/
structure NpRandom where
  value : Nat → Nat → ℚ

/-- The state of the numpy global generator: the last seed planted and the
number of variates consumed since. -/
structure RngState where
  seed : Nat
  pos : Nat
deriving DecidableEq

/-- np.random.seed n (app.py line 119): resets the stream, discarding the
incoming state. -/
def npSeed (n : Nat) (_s : RngState) : RngState := ⟨n, 0⟩

/-- One variate of np.random.uniform(a, b): a + (b - a) times the next
stream value, advancing the stream. -/
def uniformDraw (R : NpRandom) (a b : ℚ) (s : RngState) : ℚ × RngState :=
  (a + (b - a) * R.value s.seed s.pos, ⟨s.seed, s.pos + 1⟩)

/-- np.random.uniform(a, b, n): n successive variates (app.py line 140). -/
def uniformDraws (R : NpRandom) (a b : ℚ) : Nat → RngState → List ℚ × RngState
  | 0, s => ([], s)
  | n + 1, s =>
      let d := uniformDraw R a b s
      let rest := uniformDraws R a b n d.2
      (d.1 :: rest.1, rest.2)

/-- The documented range of the stream values: each variate of uniform(0,1)
lies in the half-open unit interval. -/
def RngBounded (R : NpRandom) : Prop :=
  ∀ s p, 0 ≤ R.value s p ∧ R.value s p < 1

/-- The trigonometric functions of the layout, abstract but with the range
bound that cosine and sine actually satisfy, together with the constant pi. -/
structure Trig where
  pi : ℚ
  cos : ℚ → ℚ
  sin : ℚ → ℚ

/-- Cosine and sine are bounded by one in absolute value. -/
def TrigBounded (C : Trig) : Prop :=
  ∀ x, |C.cos x| ≤ 1 ∧ |C.sin x| ≤ 1

/-- One row of df_plot as the layout sees it: the company, its
Employee_Band_Standard, the two jitter columns, x_numeric and x_position. -/
structure PlotRow where
  company : Company
  band : String
  x_jitter : ℚ
  y_jitter : ℚ
  x_numeric : Option Nat
  x_position : Option ℚ
deriving DecidableEq

/-- Rows entering the layout loop: band classified from the stripped label
(app.py lines 94-107), jitters initialized to zero (lines 121-122), the
x columns not yet assigned. -/
def initRow (c : Company) : PlotRow :=
  ⟨c, classifyBand (pyStrip c.estimated_Employee_Band), 0, 0, none, none⟩

/-- The inner loop of app.py lines 144-152 before the trigonometric
conversion: the i-th entity of a band of n entities receives the polar pair
(radius_variation i, i * angle_step + perturbation), consuming one
uniform(-0.3, 0.3) variate per entity.  k counts the remaining entities. -/
def polarAux (R : NpRandom) (step : ℚ) (radii : List ℚ) :
    Nat → Nat → RngState → List (ℚ × ℚ) × RngState
  | _, 0, s => ([], s)
  | i, k + 1, s =>
      let d := uniformDraw R (-(3/10)) (3/10) s
      let rest := polarAux R step radii (i + 1) k d.2
      ((radii.getD i 0, (i : ℚ) * step + d.1) :: rest.1, rest.2)

/-- The polar pairs of one band of n companies (app.py lines 139-146):
angle_step = 2 pi / n, n radius draws from uniform(0.3, 1.0), then one
angle perturbation per entity. -/
def polarList (R : NpRandom) (C : Trig) (n : Nat) (s : RngState) :
    List (ℚ × ℚ) × RngState :=
  let step := 2 * C.pi / (n : ℚ)
  let rs := uniformDraws R (3/10) 1 n s
  polarAux R step rs.1 0 n rs.2

/-- Conversion of one polar pair to the jitter offsets (app.py lines
148-149): x scaled by jitter_strength_x = 0.45, y by jitter_strength_y
= 2.5. -/
def toCart (C : Trig) (p : ℚ × ℚ) : ℚ × ℚ :=
  (p.1 * C.cos p.2 * (9/20), p.1 * C.sin p.2 * (5/2))

/-- The jitter offsets of one band of n companies (app.py lines 135-152):
a single company is centred with no draws consumed, otherwise the polar
pairs are converted to Cartesian offsets. -/
def jitterList (R : NpRandom) (C : Trig) (n : Nat) (s : RngState) :
    List (ℚ × ℚ) × RngState :=
  if n = 1 then ([(0, 0)], s)
  else
    let ps := polarList R C n s
    (ps.1.map (toCart C), ps.2)

/-- Overwrite the jitter columns of one row (the assignment of app.py
lines 154-155 for one row). -/
def jitterUpdate (r : PlotRow) (j : ℚ × ℚ) : PlotRow :=
  { r with x_jitter := j.1, y_jitter := j.2 }

/-- df_plot.loc[band_indices, jitter columns] = jitter lists: the rows whose
band matches receive the jitter pairs in order, other rows are unchanged. -/
def scatterBand (band : String) : List (ℚ × ℚ) → List PlotRow → List PlotRow
  | _, [] => []
  | js, r :: rs =>
      if r.band = band then
        match js with
        | [] => r :: scatterBand band [] rs
        | j :: tl => jitterUpdate r j :: scatterBand band tl rs
      else r :: scatterBand band js rs

/-- The for band in band_order loop of app.py lines 124-155: per band count
the matching rows, skip an empty band, otherwise draw its jitter list and
assign it, threading the random stream. -/
def layoutOver (R : NpRandom) (C : Trig) :
    List String → List PlotRow → RngState → List PlotRow × RngState
  | [], rows, s => (rows, s)
  | b :: bs, rows, s =>
      let n := rows.countP (fun r => r.band == b)
      if n = 0 then layoutOver R C bs rows s
      else
        let js := jitterList R C n s
        layoutOver R C bs (scatterBand b js.1 rows) js.2

/-- The band_to_numeric dictionary of app.py line 157: the 0-based index of
a band in band_order, none when the band is not listed (a pandas map to a
missing key, NaN in the source). -/
def idxOf? (b : String) : List String → Nat → Option Nat
  | [], _ => none
  | x :: xs, k => if x = b then some k else idxOf? b xs (k + 1)

def band_to_numeric (b : String) : Option Nat := idxOf? b band_order 0

/-- app.py lines 158-159: x_numeric = band_to_numeric of the band,
x_position = x_numeric + x_jitter (none plus anything stays none, as the
NaN of the source). -/
def finalizeRow (r : PlotRow) : PlotRow :=
  { r with x_numeric := band_to_numeric r.band,
           x_position := (band_to_numeric r.band).map (fun k : Nat => (k : ℚ) + r.x_jitter) }

/-- The full layout pass of create_bubble_chart (app.py lines 92-159) on a
non-empty df, from an arbitrary incoming random state: classify, reseed the
stream to 42, run the band loop, then derive the x columns. -/
def create_bubble_chart_layout (R : NpRandom) (C : Trig) (df : List Company)
    (s0 : RngState) : List PlotRow × RngState :=
  let rows := df.map initRow
  let s1 := npSeed 42 s0
  let lr := layoutOver R C band_order rows s1
  (lr.1.map finalizeRow, lr.2)

/-- The point actually plotted for a row: px.scatter(x = x_position,
y = y_jitter) (app.py lines 161-164). -/
def plottedPoint (r : PlotRow) : Option ℚ × ℚ := (r.x_position, r.y_jitter)

/-- The click resolution of app.py lines 248-268: df_plot.iloc[clicked_idx]
raises IndexError when the index is outside the rendered rows (modelled as
none), otherwise the selection set is updated by on_marker_click. -/
def handle_click_event (rows : List PlotRow) (point_index : Nat)
    ( is_rejected : Bool) (S : Finset String) : Option (Finset String) :=
  match rows.get? point_index with
  | none => none
  | some r => some (on_marker_click is_rejected r.company.entity_Legal_Name S)

/-- A sample row used by witnesses. -/
def sampleCompany : Company :=
  ⟨"Acme Ltd", "Company", "Auckland", "1-5 Employees", "B1", "K6411"⟩

def sampleRow : FilterRow := augmentRow sampleCompany

def samplePlotRow : PlotRow := initRow sampleCompany

/-- Abbreviations for the three canonical band strings. -/
def bandA : String := "1" ++ mojidash ++ "5 Employees"

def bandB : String := "6" ++ mojidash ++ "19 Employees"

def bandC : String := "20" ++ mojidash ++ "49 Employees"

/-- A stream whose every variate is one half. -/
def Rhalf : NpRandom := ⟨fun _ _ => 1/2⟩

/-- A stream equal to one half except at positions 14 and 15, chosen inside
the documented uniform range so that two perturbed angles of an 11-company
band coincide exactly. -/
def Rcex : NpRandom :=
  ⟨fun _ p => if p = 14 then 21/22 else if p = 15 then 1/22 else 1/2⟩

/-- Constant trigonometric data with pi = 3, cosine 1 and sine 0. -/
def Cone : Trig := ⟨3, fun _ => 1, fun _ => 0⟩

/-- Constant trigonometric data with pi = 3, cosine -1 and sine 0 (the real
cosine is close to -1 at the angle of the second of two entities). -/
def Cneg : Trig := ⟨3, fun _ => -1, fun _ => 0⟩

/-- Two companies in two different canonical bands. -/
def wdf : List Company :=
  [⟨"Alpha", "", "", bandA, "", ""⟩, ⟨"Beta", "", "", bandB, "", ""⟩]

def wrow0 : PlotRow := ⟨⟨"Alpha", "", "", bandA, "", ""⟩, bandA, 0, 0, some 0, some 0⟩

def wrow1 : PlotRow := ⟨⟨"Beta", "", "", bandB, "", ""⟩, bandB, 0, 0, some 1, some 1⟩

/-- One company in the first band, two in the second. -/
def cdf5 : List Company :=
  [⟨"Alpha", "", "", bandA, "", ""⟩, ⟨"Beta", "", "", bandB, "", ""⟩,
   ⟨"Gamma", "", "", bandB, "", ""⟩]

/-- Eleven companies in the first band. -/
def cdf4 : List Company :=
  [⟨"c0", "", "", bandA, "", ""⟩, ⟨"c1", "", "", bandA, "", ""⟩,
   ⟨"c2", "", "", bandA, "", ""⟩, ⟨"c3", "", "", bandA, "", ""⟩,
   ⟨"c4", "", "", bandA, "", ""⟩, ⟨"c5", "", "", bandA, "", ""⟩,
   ⟨"c6", "", "", bandA, "", ""⟩, ⟨"c7", "", "", bandA, "", ""⟩,
   ⟨"c8", "", "", bandA, "", ""⟩, ⟨"c9", "", "", bandA, "", ""⟩,
   ⟨"c10", "", "", bandA, "", ""⟩]

/-- Two companies whose band label is not canonical. -/
def cdf9 : List Company :=
  [⟨"Delta", "", "", "Unknown Band", "", ""⟩, ⟨"Echo", "", "", "Unknown Band", "", ""⟩]

def wrow9a : PlotRow :=
  ⟨⟨"Delta", "", "", "Unknown Band", "", ""⟩, "Unknown Band", 0, 0, none, none⟩

def wrow9b : PlotRow :=
  ⟨⟨"Echo", "", "", "Unknown Band", "", ""⟩, "Unknown Band", 0, 0, none, none⟩

/-- C1: a click on a marker of the pool chart (is_rejected true) puts the
entity into the selection set, a click on a marker of the shortlist chart
(is_rejected false) takes it out, and both transitions are idempotent. -/
theorem selection_toggle_contract (E : String) (S : Finset String) :
    E ∈ on_marker_click true E S ∧
    E ∉ on_marker_click false E S ∧
    (E ∈ S → on_marker_click true E S = S) ∧
    (E ∉ S → on_marker_click false E S = S) := by
  refine ⟨?_, ?_, ?_, ?_⟩
  · simp [on_marker_click]
  · by_cases h : E ∈ S <;> simp [on_marker_click, h]
  · intro h
    simpa [on_marker_click] using Finset.insert_eq_self.mpr h
  · intro h
    simp [on_marker_click, h]

theorem selection_toggle_contract_witness :
    "Acme Ltd" ∈ on_marker_click true "Acme Ltd" ({"Acme Ltd"} : Finset String) ∧
    on_marker_click true "Acme Ltd" ({"Acme Ltd"} : Finset String) = {"Acme Ltd"} ∧
    on_marker_click false "Acme Ltd" (∅ : Finset String) = ∅ :=
  ⟨(selection_toggle_contract "Acme Ltd" {"Acme Ltd"}).1,
   (selection_toggle_contract "Acme Ltd" {"Acme Ltd"}).2.2.1 (by decide),
   (selection_toggle_contract "Acme Ltd" ∅).2.2.2 (by decide)⟩

/-- A list is a permutation of the rows kept by a Boolean predicate followed
by the rows it rejects. -/
lemma filter_not_filter_perm {α : Type} (p : α → Bool) :
    ∀ l : List α, List.Perm (l.filter p ++ l.filter (fun a => !(p a))) l := by
  intro l
  induction l with
  | nil => simp
  | cons x xs ih =>
    by_cases h : p x = true
    · simpa [List.filter_cons, h] using List.Perm.cons x ih
    · have h2 : p x = false := by simpa using h
      simp only [List.filter_cons, h2, Bool.not_false, cond_true, cond_false]
      exact List.perm_middle.trans (List.Perm.cons x ih)

/-- C6: the shortlist rows (legal name in the selection set) and the pool
rows (legal name not in it) are disjoint, together they are exactly the
filtered rows, and every filtered row lies in exactly one of the two. -/
theorem partition_bipartition (filtered : List FilterRow) (S : Finset String) :
    (∀ r, ¬ (r ∈ (partitionShortlist filtered S).1 ∧
             r ∈ (partitionShortlist filtered S).2)) ∧
    List.Perm ((partitionShortlist filtered S).1 ++ (partitionShortlist filtered S).2)
      filtered ∧
    (∀ r ∈ filtered,
      (r ∈ (partitionShortlist filtered S).1 ∧ r ∉ (partitionShortlist filtered S).2) ∨
      (r ∈ (partitionShortlist filtered S).2 ∧ r ∉ (partitionShortlist filtered S).1)) := by
  refine ⟨?_, ?_, ?_⟩
  · rintro r ⟨h1, h2⟩
    simp [partitionShortlist, List.mem_filter] at h1 h2
    exact h2.2 h1.2
  · have h := filter_not_filter_perm
      (fun r : FilterRow => decide (r.company.entity_Legal_Name ∈ S)) filtered
    simpa [partitionShortlist, decide_not] using h
  · intro r hr
    by_cases h : r.company.entity_Legal_Name ∈ S
    · left
      constructor <;> simp [partitionShortlist, List.mem_filter, hr, h]
    · right
      constructor <;> simp [partitionShortlist, List.mem_filter, hr, h]

theorem partition_bipartition_witness :
    ¬ (sampleRow ∈ (partitionShortlist [sampleRow] ∅).1 ∧
       sampleRow ∈ (partitionShortlist [sampleRow] ∅).2) ∧
    List.Perm ((partitionShortlist [sampleRow] ∅).1 ++ (partitionShortlist [sampleRow] ∅).2)
      [sampleRow] :=
  ⟨(partition_bipartition [sampleRow] ∅).1 sampleRow,
   (partition_bipartition [sampleRow] ∅).2.1⟩

/-- C7: a click whose point index is outside the rendered rows makes
df_plot.iloc raise (modelled none) instead of leaving the selection set
unchanged, while an in-range click resolves to the row and updates the set. -/
theorem stale_click_uncaught :
    ([samplePlotRow] : List PlotRow).length = 1 ∧
    handle_click_event [samplePlotRow] 1 true ∅ = none ∧
    handle_click_event [samplePlotRow] 0 true ∅ = some {"Acme Ltd"} := by
  refine ⟨rfl, rfl, ?_⟩
  simp [handle_click_event, on_marker_click, samplePlotRow, initRow, sampleCompany]

/-- A conditional filter keeps a sublist of its input. -/
lemma if_filter_sublist {α : Type} (c : Prop) [Decidable c] (rows : List α)
    (p : α → Bool) : List.Sublist (if c then rows else rows.filter p) rows := by
  split_ifs
  · exact List.Sublist.refl rows
  · exact List.filter_sublist rows

/-- C8: apply_filters with the three selections empty returns the input rows
unchanged in content and order (each row only augmented with the two derived
band columns), and in general its output is an order-preserving subsequence
of the input; the input list itself is never mutated (the model is a pure
function of it). -/
theorem apply_filters_identity (df : List Company) :
    (apply_filters df [] [] []).map FilterRow.company = df ∧
    apply_filters df [] [] [] = df.map augmentRow ∧
    ∀ locations employee_bands anzsic_codes,
      List.Sublist
        ((apply_filters df locations employee_bands anzsic_codes).map FilterRow.company)
        df := by
  have hcomp : FilterRow.company ∘ augmentRow = id := funext fun c => rfl
  refine ⟨?_, ?_, ?_⟩
  · simp only [apply_filters, List.isEmpty_nil, if_true, List.map_map, hcomp, List.map_id]
  · simp [apply_filters]
  · intro ls bs cs
    have key : List.Sublist (apply_filters df ls bs cs) (df.map augmentRow) := by
      simp only [apply_filters]
      exact (if_filter_sublist _ _ _).trans
        ((if_filter_sublist _ _ _).trans (if_filter_sublist _ _ _))
    have h2 := List.Sublist.map FilterRow.company key
    simpa [List.map_map, hcomp] using h2

/-- find? returns the element at index i when it satisfies the predicate and
everything before index i does not. -/
lemma bandFind_first (p : String → Bool) :
    ∀ (l : List String) (i : Nat) (b : String), l.get? i = some b → p b = true →
      (∀ x ∈ l.take i, p x = false) → l.find? p = some b := by
  intro l
  induction l with
  | nil => intro i b hb hp ht; simp at hb
  | cons x xs ih =>
    intro i b hget hp htake
    cases i with
    | zero =>
      simp at hget
      subst hget
      simp [List.find?_cons_of_pos, hp]
    | succ j =>
      have hx : p x = false := htake x (by simp)
      have hrec := ih j b (by simpa using hget) hp
        (by intro y hy; exact htake y (by simp [hy]))
      simpa [List.find?_cons_of_neg, hx] using hrec

/-- C3: the classifier returns the first canonical band, in ascending band
order, whose leading token occurs in the cleaned label; a label containing
some canonical band token is always classified to a canonical band; a label
containing none is returned unchanged, so every row is classified. -/
theorem band_classifier_contract (clean : String) :
    (classifyBand clean ∈ band_order ∨ classifyBand clean = clean) ∧
    ((∀ b ∈ band_order, tokenSub b clean = false) → classifyBand clean = clean) ∧
    ((∃ b ∈ band_order, tokenSub b clean = true) → classifyBand clean ∈ band_order) ∧
    (∀ i b, band_order.get? i = some b → tokenSub b clean = true →
      (∀ b2 ∈ band_order.take i, tokenSub b2 clean = false) →
      classifyBand clean = b) := by
  refine ⟨?_, ?_, ?_, ?_⟩
  · cases h : band_order.find? (fun sb => tokenSub sb clean) with
    | none => right; simp [classifyBand, h]
    | some b =>
      left
      have hb := List.mem_of_find?_eq_some h
      simpa [classifyBand, h] using hb
  · intro hall
    have h : band_order.find? (fun sb => tokenSub sb clean) = none := by
      rw [List.find?_eq_none]
      intro x hx
      simp [hall x hx]
    simp [classifyBand, h]
  · rintro ⟨b, hb, hp⟩
    cases h : band_order.find? (fun sb => tokenSub sb clean) with
    | none =>
      rw [List.find?_eq_none] at h
      exact absurd hp (by simpa using h b hb)
    | some b2 =>
      have hb2 := List.mem_of_find?_eq_some h
      simpa [classifyBand, h] using hb2
  · intro i b hget hp htake
    have h := bandFind_first (fun sb => tokenSub sb clean) band_order i b hget hp htake
    simp [classifyBand, h]

theorem band_classifier_contract_witness :
    classifyBand ("20" ++ mojidash ++ "49 employees") = "20" ++ mojidash ++ "49 Employees" ∧
    classifyBand "Micro Team" = "Micro Team" :=
  ⟨(band_classifier_contract ("20" ++ mojidash ++ "49 employees")).2.2.2 2
      ("20" ++ mojidash ++ "49 Employees") (by decide) (by decide) (by decide),
   (band_classifier_contract "Micro Team").2.1 (by decide)⟩

/-- Unfolding of one step of uniformDraws. -/
lemma uniformDraws_succ (R : NpRandom) (a b : ℚ) (n : Nat) (s : RngState) :
    uniformDraws R a b (n + 1) s =
      ((a + (b - a) * R.value s.seed s.pos) ::
         (uniformDraws R a b n ⟨s.seed, s.pos + 1⟩).1,
       (uniformDraws R a b n ⟨s.seed, s.pos + 1⟩).2) := rfl

/-- Every variate of uniform(a, b) lies between a and b. -/
lemma uniformDraws_bounds (R : NpRandom) (hR : RngBounded R) (a b : ℚ)
    (hab : a ≤ b) :
    ∀ (n : Nat) (s : RngState), ∀ x ∈ (uniformDraws R a b n s).1, a ≤ x ∧ x ≤ b := by
  intro n
  induction n with
  | zero => intro s x hx; simp [uniformDraws] at hx
  | succ m ih =>
    intro s x hx
    rw [uniformDraws_succ] at hx
    rcases List.mem_cons.mp hx with h | h
    · subst h
      have hv := hR s.seed s.pos
      have h0 : 0 ≤ (b - a) * R.value s.seed s.pos :=
        mul_nonneg (sub_nonneg.mpr hab) hv.1
      have h1 : (b - a) * R.value s.seed s.pos ≤ (b - a) * 1 :=
        mul_le_mul_of_nonneg_left (le_of_lt hv.2) (sub_nonneg.mpr hab)
      constructor <;> linarith
    · exact ih _ x h

/-- The radius draws of a band all have absolute value at most one. -/
lemma radii_abs_le (R : NpRandom) (hR : RngBounded R) (n : Nat) (s : RngState) :
    ∀ x ∈ (uniformDraws R (3/10) 1 n s).1, |x| ≤ 1 := by
  intro x hx
  have h := uniformDraws_bounds R hR (3/10) 1 (by norm_num) n s x hx
  rw [abs_le]
  constructor <;> linarith [h.1, h.2]

/-- An indexed read with default zero of a list bounded by one is bounded. -/
lemma getD_abs_le (l : List ℚ) (hl : ∀ x ∈ l, |x| ≤ 1) (i : Nat) :
    |l.getD i 0| ≤ 1 := by
  cases h : l[i]? with
  | none => simp [List.getD, h]
  | some x =>
    have hx : x ∈ l := by
      apply List.get?_mem
      rw [List.get?_eq_getElem?]
      exact h
    simpa [List.getD, h] using hl x hx

/-- Unfolding of one step of polarAux. -/
lemma polarAux_succ (R : NpRandom) (step : ℚ) (radii : List ℚ) (i k : Nat)
    (s : RngState) :
    polarAux R step radii i (k + 1) s =
      ((radii.getD i 0,
        (i : ℚ) * step + (-(3/10) + (3/10 - -(3/10)) * R.value s.seed s.pos)) ::
          (polarAux R step radii (i + 1) k ⟨s.seed, s.pos + 1⟩).1,
       (polarAux R step radii (i + 1) k ⟨s.seed, s.pos + 1⟩).2) := rfl

/-- Every polar pair carries some radius draw (or the list default zero) as
its first component. -/
lemma polarAux_fst (R : NpRandom) (step : ℚ) (radii : List ℚ) :
    ∀ (k i : Nat) (s : RngState), ∀ p ∈ (polarAux R step radii i k s).1,
      ∃ j : Nat, p.1 = radii.getD j 0 := by
  intro k
  induction k with
  | zero => intro i s p hp; simp [polarAux] at hp
  | succ m ih =>
    intro i s p hp
    rw [polarAux_succ] at hp
    rcases List.mem_cons.mp hp with h | h
    · exact ⟨i, by rw [h]⟩
    · exact ih _ _ p h

/-- Unfolding of polarList. -/
lemma polarList_def (R : NpRandom) (C : Trig) (n : Nat) (s : RngState) :
    polarList R C n s =
      polarAux R (2 * C.pi / (n : ℚ)) (uniformDraws R (3/10) 1 n s).1 0 n
        (uniformDraws R (3/10) 1 n s).2 := rfl

/-- The jitter offsets of a band are bounded by the two jitter strengths. -/
lemma jitterList_bounds (R : NpRandom) (C : Trig) (hR : RngBounded R)
    (hC : TrigBounded C) (n : Nat) (s : RngState) :
    ∀ j ∈ (jitterList R C n s).1, |j.1| ≤ 9/20 ∧ |j.2| ≤ 5/2 := by
  intro j hj
  by_cases h1 : n = 1
  · subst h1
    have : j = ((0 : ℚ), (0 : ℚ)) := by simpa [jitterList] using hj
    rw [this]
    norm_num
  · have hmem : ∃ p ∈ (polarList R C n s).1, toCart C p = j := by
      simpa [jitterList, h1] using hj
    obtain ⟨p, hp, hje⟩ := hmem
    rw [polarList_def] at hp
    obtain ⟨jdx, hj1⟩ := polarAux_fst R _ _ n 0 _ p hp
    have hr1 : |p.1| ≤ 1 := by
      rw [hj1]
      exact getD_abs_le _ (radii_abs_le R hR n s) jdx
    have hcos := (hC p.2).1
    have hsin := (hC p.2).2
    subst hje
    constructor
    · show |p.1 * C.cos p.2 * (9/20)| ≤ 9/20
      rw [abs_mul, abs_mul, show |(9/20 : ℚ)| = 9/20 by norm_num]
      nlinarith [abs_nonneg p.1, abs_nonneg (C.cos p.2)]
    · show |p.1 * C.sin p.2 * (5/2)| ≤ 5/2
      rw [abs_mul, abs_mul, show |(5/2 : ℚ)| = 5/2 by norm_num]
      nlinarith [abs_nonneg p.1, abs_nonneg (C.sin p.2)]

/-- A row of the scattered list is either an untouched input row or an input
row of the processed band updated with one of the jitter pairs. -/
lemma scatterBand_mem (band : String) :
    ∀ (rows : List PlotRow) (js : List (ℚ × ℚ)), ∀ r2 ∈ scatterBand band js rows,
      r2 ∈ rows ∨ ∃ r ∈ rows, ∃ j ∈ js, r.band = band ∧ r2 = jitterUpdate r j := by
  intro rows
  induction rows with
  | nil => intro js r2 h; simp [scatterBand] at h
  | cons r rs ih =>
    intro js r2 h2
    by_cases hb : r.band = band
    · cases js with
      | nil =>
        have h3 : r2 = r ∨ r2 ∈ scatterBand band [] rs := by
          simpa [scatterBand, hb] using h2
        rcases h3 with h | h
        · left; simp [h]
        · rcases ih [] r2 h with h4 | ⟨r3, hr3, j, hj, _⟩
          · left; simp [h4]
          · simp at hj
      | cons j tl =>
        have h3 : r2 = jitterUpdate r j ∨ r2 ∈ scatterBand band tl rs := by
          simpa [scatterBand, hb] using h2
        rcases h3 with h | h
        · right; exact ⟨r, by simp, j, by simp, hb, h⟩
        · rcases ih tl r2 h with h4 | ⟨r3, hr3, j2, hj2, hb3, he⟩
          · left; simp [h4]
          · right; exact ⟨r3, by simp [hr3], j2, by simp [hj2], hb3, he⟩
    · have h3 : r2 = r ∨ r2 ∈ scatterBand band js rs := by
        simpa [scatterBand, hb] using h2
      rcases h3 with h | h
      · left; simp [h]
      · rcases ih js r2 h with h4 | ⟨r3, hr3, j2, hj2, hb3, he⟩
        · left; simp [h4]
        · right; exact ⟨r3, by simp [hr3], j2, hj2, hb3, he⟩

/-- An invariant of rows that is preserved by jitter updates of rows of a
listed band is preserved by the whole band loop. -/
lemma layoutOver_preserve (R : NpRandom) (C : Trig) (P : PlotRow → Prop)
    (hup : ∀ (b : String) (r : PlotRow) (n : Nat) (s : RngState) (j : ℚ × ℚ),
      b ∈ band_order → r.band = b → j ∈ (jitterList R C n s).1 → P r →
      P (jitterUpdate r j)) :
    ∀ (bands : List String), (∀ b ∈ bands, b ∈ band_order) →
      ∀ (rows : List PlotRow) (s : RngState), (∀ r ∈ rows, P r) →
      ∀ r2 ∈ (layoutOver R C bands rows s).1, P r2 := by
  intro bands
  induction bands with
  | nil =>
    intro hb rows s hrows r2 h2
    exact hrows r2 (by simpa [layoutOver] using h2)
  | cons b bs ih =>
    intro hb rows s hrows r2 h2
    by_cases hn : rows.countP (fun r => r.band == b) = 0
    · have heq : layoutOver R C (b :: bs) rows s = layoutOver R C bs rows s := by
        simp [layoutOver, hn]
      rw [heq] at h2
      exact ih (fun x hx => hb x (by simp [hx])) rows s hrows r2 h2
    · have heq : layoutOver R C (b :: bs) rows s =
        layoutOver R C bs
          (scatterBand b
            (jitterList R C (rows.countP (fun r => r.band == b)) s).1 rows)
          (jitterList R C (rows.countP (fun r => r.band == b)) s).2 := by
        simp [layoutOver, hn]
      rw [heq] at h2
      have hrows2 : ∀ r ∈ scatterBand b
          (jitterList R C (rows.countP (fun r => r.band == b)) s).1 rows, P r := by
        intro r hr
        rcases scatterBand_mem b rows _ r hr with h | ⟨r3, hr3, j, hj, hb3, he⟩
        · exact hrows r h
        · rw [he]
          exact hup b r3 _ _ j (hb b (by simp)) hb3 hj (hrows r3 hr3)
      exact ih (fun x hx => hb x (by simp [hx])) _ _ hrows2 r2 h2

/-- Bounds on both jitter columns of every row after the band loop. -/
lemma layout_rows_core (R : NpRandom) (C : Trig) (hR : RngBounded R)
    (hC : TrigBounded C) (df : List Company) (s : RngState) :
    ∀ r ∈ (layoutOver R C band_order (df.map initRow) (npSeed 42 s)).1,
      |r.x_jitter| ≤ 9/20 ∧ |r.y_jitter| ≤ 5/2 := by
  apply layoutOver_preserve R C
    (fun r => |r.x_jitter| ≤ 9/20 ∧ |r.y_jitter| ≤ 5/2)
  · intro b r n s2 j hb hband hj hP
    have h := jitterList_bounds R C hR hC n s2 j hj
    simpa [jitterUpdate] using h
  · intro b hb; exact hb
  · intro r hr
    obtain ⟨c, hc, rfl⟩ := List.mem_map.mp hr
    simp [initRow]
    norm_num

/-- The specification of every row of the finished layout: bounded jitters,
x_numeric is the band index, x_position is x_numeric plus the x jitter. -/
lemma layout_rows_spec (R : NpRandom) (C : Trig) (hR : RngBounded R)
    (hC : TrigBounded C) (df : List Company) (s : RngState) :
    ∀ r ∈ (create_bubble_chart_layout R C df s).1,
      |r.x_jitter| ≤ 9/20 ∧ |r.y_jitter| ≤ 5/2 ∧
      r.x_numeric = band_to_numeric r.band ∧
      r.x_position = r.x_numeric.map (fun k : Nat => (k : ℚ) + r.x_jitter) := by
  intro r hr
  have hr2 : ∃ r0 ∈ (layoutOver R C band_order (df.map initRow) (npSeed 42 s)).1,
      finalizeRow r0 = r := by
    simpa [create_bubble_chart_layout] using hr
  obtain ⟨r0, h0, rfl⟩ := hr2
  have hb := layout_rows_core R C hR hC df s r0 h0
  refine ⟨hb.1, hb.2, rfl, ?_⟩
  simp [finalizeRow]

/-- A band absent from the listed bands has no index. -/
lemma idxOf?_eq_none (b : String) :
    ∀ (l : List String) (k : Nat), b ∉ l → idxOf? b l k = none := by
  intro l
  induction l with
  | nil => intro k h; rfl
  | cons x xs ih =>
    intro k h
    have hx : ¬ x = b := fun he => h (by simp [he])
    simp only [idxOf?, if_neg hx]
    exact ih (k + 1) (fun hmem => h (by simp [hmem]))

/-- Rows of a non-canonical band keep their zero jitters through the band
loop (the loop iterates over band_order only). -/
lemma layout_fallback_core (R : NpRandom) (C : Trig) (df : List Company)
    (s : RngState) :
    ∀ r ∈ (layoutOver R C band_order (df.map initRow) (npSeed 42 s)).1,
      r.band ∉ band_order → r.x_jitter = 0 ∧ r.y_jitter = 0 := by
  apply layoutOver_preserve R C
    (fun r => r.band ∉ band_order → r.x_jitter = 0 ∧ r.y_jitter = 0)
  · intro b r n s2 j hb hband hj hP hnot
    exact absurd (by simpa [jitterUpdate, hband] using hb) hnot
  · intro b hb; exact hb
  · intro r hr
    obtain ⟨c, hc, rfl⟩ := List.mem_map.mp hr
    intro h
    exact ⟨rfl, rfl⟩

/-- The m-th polar pair of a band: the m-th radius draw paired with the
angle m * step + perturbation, the perturbation consuming the m-th variate
after the radius block. -/
lemma polarAux_get? (R : NpRandom) (step : ℚ) (radii : List ℚ) :
    ∀ (k m i : Nat) (s : RngState), m < k →
      (polarAux R step radii i k s).1.get? m =
        some (radii.getD (i + m) 0,
          ((i + m : Nat) : ℚ) * step +
            (-(3/10) + (3/5) * R.value s.seed (s.pos + m))) := by
  intro k
  induction k with
  | zero => intro m i s hm; exact absurd hm (Nat.not_lt_zero m)
  | succ n ih =>
    intro m i s hm
    rw [polarAux_succ]
    cases m with
    | zero =>
      simp only [List.get?_cons_zero, Nat.add_zero, Option.some_inj]
      norm_num
    | succ m2 =>
      rw [List.get?_cons_succ]
      rw [ih m2 (i + 1) ⟨s.seed, s.pos + 1⟩ (by omega)]
      have e1 : i + 1 + m2 = i + (m2 + 1) := by omega
      have e2 : s.pos + 1 + m2 = s.pos + (m2 + 1) := by omega
      simp only [e1]
      norm_num [e2]

lemma Rhalf_bounded : RngBounded Rhalf := by
  intro s p
  constructor <;> norm_num [Rhalf]

lemma Rcex_value (s p : Nat) :
    Rcex.value s p = if p = 14 then (21/22 : ℚ) else if p = 15 then 1/22 else 1/2 := rfl

lemma Rcex_bounded : RngBounded Rcex := by
  intro s p
  rw [Rcex_value]
  split_ifs <;> norm_num

lemma Cone_bounded : TrigBounded Cone := by
  intro x
  constructor <;> norm_num [Cone]

lemma Cneg_bounded : TrigBounded Cneg := by
  intro x
  constructor <;> norm_num [Cneg]

/-- C2: the layout reseeds the random stream to the fixed constant 42 before
the band loop, so its coordinates do not depend on the incoming stream
state: two invocations on the same input produce identical rows, and the
rows of one chart do not depend on the other chart invocation (in
particular not on its entity cardinality). -/
theorem jitter_layout_deterministic (R : NpRandom) (C : Trig)
    (df dfOther : List Company) (s1 s2 s3 : RngState) :
    (create_bubble_chart_layout R C df s1).1 = (create_bubble_chart_layout R C df s2).1 ∧
    (create_bubble_chart_layout R C df (create_bubble_chart_layout R C dfOther s3).2).1
      = (create_bubble_chart_layout R C df s1).1 :=
  ⟨rfl, rfl⟩

/-- C10: under the documented ranges of the draws and of cosine and sine,
every placed row has a horizontal offset of magnitude at most 0.45 and a
vertical offset of magnitude at most 2.5, and a row of a canonical band
sits within its band rank plus or minus 0.45, strictly inside the band
half-unit column. -/
theorem jitter_offsets_bounded (R : NpRandom) (C : Trig) (df : List Company)
    (s : RngState) (hR : RngBounded R) (hC : TrigBounded C) :
    ∀ r ∈ (create_bubble_chart_layout R C df s).1,
      |r.x_jitter| ≤ 9/20 ∧ |r.y_jitter| ≤ 5/2 ∧
      ∀ k : Nat, r.x_numeric = some k →
        r.x_position = some ((k : ℚ) + r.x_jitter) ∧
        |((k : ℚ) + r.x_jitter) - (k : ℚ)| ≤ 9/20 ∧ (9/20 : ℚ) < 1/2 := by
  intro r hr
  obtain ⟨h1, h2, h3, h4⟩ := layout_rows_spec R C hR hC df s r hr
  refine ⟨h1, h2, ?_⟩
  intro k hk
  refine ⟨by rw [h4, hk]; rfl, by simpa using h1, by norm_num⟩

/-- Concrete evaluation of the layout on two companies in two bands. -/
lemma wlayout_eval :
    (create_bubble_chart_layout Rhalf Cone wdf ⟨0, 0⟩).1 = [wrow0, wrow1] := by
  simp +decide [create_bubble_chart_layout, wdf, wrow0, wrow1, initRow, layoutOver,
    scatterBand, jitterList, polarList, polarAux, uniformDraws, uniformDraw, jitterUpdate,
    finalizeRow, band_to_numeric, idxOf?, band_order, bandA, bandB, bandC, classifyBand,
    pyStrip, tokenSub, npSeed, Rhalf, Cone, toCart, List.countP_cons, List.countP_nil]

theorem jitter_offsets_bounded_witness :
    |wrow0.x_jitter| ≤ 9/20 ∧ |wrow0.y_jitter| ≤ 5/2 :=
  ⟨(jitter_offsets_bounded Rhalf Cone wdf ⟨0, 0⟩ Rhalf_bounded Cone_bounded
      wrow0 (by rw [wlayout_eval]; simp)).1,
   (jitter_offsets_bounded Rhalf Cone wdf ⟨0, 0⟩ Rhalf_bounded Cone_bounded
      wrow0 (by rw [wlayout_eval]; simp)).2.1⟩

/-- C5 (amended): the final x of a row is its band rank plus the bounded
horizontal offset, the plotted y is the vertical offset alone, and rows of
different canonical bands never share an x value; the integer part of x can
however fall below the band rank when the offset is negative. -/
theorem coordinate_structure_amended (R : NpRandom) (C : Trig) (df : List Company)
    (s : RngState) (hR : RngBounded R) (hC : TrigBounded C) :
    ∀ r1 ∈ (create_bubble_chart_layout R C df s).1,
      r1.x_position = r1.x_numeric.map (fun k : Nat => (k : ℚ) + r1.x_jitter) ∧
      plottedPoint r1 = (r1.x_position, r1.y_jitter) ∧
      ∀ r2 ∈ (create_bubble_chart_layout R C df s).1, ∀ k1 k2 : Nat,
        r1.x_numeric = some k1 → r2.x_numeric = some k2 → k1 ≠ k2 →
        r1.x_position ≠ r2.x_position := by
  intro r1 h1
  obtain ⟨hj1, hy1, hn1, hp1⟩ := layout_rows_spec R C hR hC df s r1 h1
  refine ⟨hp1, rfl, ?_⟩
  intro r2 h2 k1 k2 hk1 hk2 hne
  obtain ⟨hj2, hy2, hn2, hp2⟩ := layout_rows_spec R C hR hC df s r2 h2
  rw [hp1, hp2, hk1, hk2]
  simp only [Option.map_some']
  intro hcontra
  have heq : (k1 : ℚ) + r1.x_jitter = (k2 : ℚ) + r2.x_jitter :=
    Option.some.inj hcontra
  have ha1 := abs_le.mp hj1
  have ha2 := abs_le.mp hj2
  rcases Nat.lt_or_ge k1 k2 with h | h
  · have hc : (k1 : ℚ) + 1 ≤ (k2 : ℚ) := by
      have h2c := Nat.succ_le_of_lt h
      exact_mod_cast h2c
    linarith [ha1.1, ha1.2, ha2.1, ha2.2]
  · have h2lt : k2 < k1 := lt_of_le_of_ne h (Ne.symm hne)
    have hc : (k2 : ℚ) + 1 ≤ (k1 : ℚ) := by
      have h2c := Nat.succ_le_of_lt h2lt
      exact_mod_cast h2c
    linarith [ha1.1, ha1.2, ha2.1, ha2.2]

theorem coordinate_structure_amended_witness :
    wrow0.x_position ≠ wrow1.x_position :=
  (coordinate_structure_amended Rhalf Cone wdf ⟨0, 0⟩ Rhalf_bounded Cone_bounded
      wrow0 (by rw [wlayout_eval]; simp)).2.2 wrow1 (by rw [wlayout_eval]; simp)
      0 1 rfl rfl (by norm_num)

/-- Concrete evaluation of the layout on one company in the first band and
two in the second, with constant cosine -1. -/
lemma c5layout_eval :
    (create_bubble_chart_layout Rhalf Cneg cdf5 ⟨0, 0⟩).1 =
      [⟨⟨"Alpha", "", "", bandA, "", ""⟩, bandA, 0, 0, some 0, some 0⟩,
       ⟨⟨"Beta", "", "", bandB, "", ""⟩, bandB, -(117/400), 0, some 1, some (283/400)⟩,
       ⟨⟨"Gamma", "", "", bandB, "", ""⟩, bandB, -(117/400), 0, some 1, some (283/400)⟩] := by
  simp +decide [create_bubble_chart_layout, cdf5, initRow, layoutOver,
    scatterBand, jitterList, polarList, polarAux, uniformDraws, uniformDraw, jitterUpdate,
    finalizeRow, band_to_numeric, idxOf?, band_order, bandA, bandB, bandC, classifyBand,
    pyStrip, tokenSub, npSeed, Rhalf, Cneg, toCart, List.countP_cons, List.countP_nil]
  norm_num

/-- C5 counterexample: with draws and trigonometric values inside their
documented ranges, the second-band row sits at x = 283/400, whose integer
part is 0, not the band rank 1, and equals the integer part of the
first-band row x = 0: the claimed integer-part encoding fails. -/
theorem x_integer_part_counterexample :
    RngBounded Rhalf ∧ TrigBounded Cneg ∧
    ((create_bubble_chart_layout Rhalf Cneg cdf5 ⟨0, 0⟩).1.get? 1).map
        (fun r => (r.x_numeric, r.x_position)) = some (some 1, some (283/400)) ∧
    ⌊(283/400 : ℚ)⌋ = 0 ∧
    ((create_bubble_chart_layout Rhalf Cneg cdf5 ⟨0, 0⟩).1.get? 0).map
        (fun r => (r.x_numeric, r.x_position)) = some (some 0, some 0) ∧
    ⌊(0 : ℚ)⌋ = 0 := by
  refine ⟨Rhalf_bounded, Cneg_bounded, ?_, ?_, ?_, ?_⟩
  · rw [c5layout_eval]; rfl
  · rw [Int.floor_eq_iff]
    norm_num
  · rw [c5layout_eval]; rfl
  · norm_num

/-- Concrete evaluation of the layout on two rows of a non-canonical band:
the band loop never touches them. -/
lemma c9layout_eval :
    (create_bubble_chart_layout Rhalf Cone cdf9 ⟨0, 0⟩).1 = [wrow9a, wrow9b] := by
  simp +decide [create_bubble_chart_layout, cdf9, wrow9a, wrow9b, initRow, layoutOver,
    scatterBand, jitterList, polarList, polarAux, uniformDraws, uniformDraw, jitterUpdate,
    finalizeRow, band_to_numeric, idxOf?, band_order, bandA, bandB, bandC, classifyBand,
    pyStrip, tokenSub, npSeed, Rhalf, Cone, toCart, List.countP_cons, List.countP_nil]

/-- C9: a row whose canonical band is the fallback label (absent from
band_order) keeps jitter (0, 0), receives no numeric x (x_numeric and hence
x_position stay none), and any two rows of one fallback band are plotted at
the identical point. -/
theorem fallback_band_rows (R : NpRandom) (C : Trig) (df : List Company)
    (s : RngState) :
    (∀ r ∈ (create_bubble_chart_layout R C df s).1, r.band ∉ band_order →
      r.x_jitter = 0 ∧ r.y_jitter = 0 ∧ r.x_numeric = none ∧ r.x_position = none) ∧
    (∀ r1 ∈ (create_bubble_chart_layout R C df s).1,
      ∀ r2 ∈ (create_bubble_chart_layout R C df s).1,
      r1.band ∉ band_order → r2.band = r1.band →
      plottedPoint r1 = plottedPoint r2) := by
  have hmain : ∀ r ∈ (create_bubble_chart_layout R C df s).1, r.band ∉ band_order →
      r.x_jitter = 0 ∧ r.y_jitter = 0 ∧ r.x_numeric = none ∧ r.x_position = none := by
    intro r hr hnot
    have hr2 : ∃ r0 ∈ (layoutOver R C band_order (df.map initRow) (npSeed 42 s)).1,
        finalizeRow r0 = r := by
      simpa [create_bubble_chart_layout] using hr
    obtain ⟨r0, h0, rfl⟩ := hr2
    have hband0 : r0.band ∉ band_order := by
      simpa [finalizeRow] using hnot
    have hj := layout_fallback_core R C df s r0 h0 hband0
    have hidx : band_to_numeric r0.band = none :=
      idxOf?_eq_none r0.band band_order 0 hband0
    refine ⟨by simpa [finalizeRow] using hj.1, by simpa [finalizeRow] using hj.2, ?_, ?_⟩
    · simp [finalizeRow, hidx]
    · simp [finalizeRow, hidx]
  refine ⟨hmain, ?_⟩
  intro r1 h1 r2 h2 hnot1 hband
  have ha := hmain r1 h1 hnot1
  have hb := hmain r2 h2 (by rw [hband]; exact hnot1)
  simp [plottedPoint, ha.2.1, ha.2.2.2, hb.2.1, hb.2.2.2]

theorem fallback_band_rows_witness :
    plottedPoint wrow9a = plottedPoint wrow9b ∧
    wrow9a.x_position = none ∧ wrow9a.x_jitter = 0 ∧ wrow9a.y_jitter = 0 :=
  ⟨(fallback_band_rows Rhalf Cone cdf9 ⟨0, 0⟩).2 wrow9a
      (by rw [c9layout_eval]; simp) wrow9b (by rw [c9layout_eval]; simp)
      (by decide) rfl,
   ((fallback_band_rows Rhalf Cone cdf9 ⟨0, 0⟩).1 wrow9a
      (by rw [c9layout_eval]; simp) (by decide)).2.2.2,
   ((fallback_band_rows Rhalf Cone cdf9 ⟨0, 0⟩).1 wrow9a
      (by rw [c9layout_eval]; simp) (by decide)).1,
   ((fallback_band_rows Rhalf Cone cdf9 ⟨0, 0⟩).1 wrow9a
      (by rw [c9layout_eval]; simp) (by decide)).2.1⟩

/-- C4 (amended): under the documented draw ranges, for a band of n
companies with 2 <= n <= 10 (so that the angle step 2 pi / n exceeds the
0.6-wide perturbation range), any two companies of the band receive
distinct perturbed angles; for larger bands the angle and radius draws can
coincide exactly, so coordinate distinctness is only probabilistic. -/
theorem band_angles_distinct (R : NpRandom) (C : Trig) (n : Nat) (s : RngState)
    (hR : RngBounded R) (hpi : 3 ≤ C.pi) (hn2 : 2 ≤ n) (hn10 : n ≤ 10)
    (m1 m2 : Nat) (h12 : m1 < m2) (h2n : m2 < n) :
    ((polarList R C n s).1.get? m1).map Prod.snd ≠
      ((polarList R C n s).1.get? m2).map Prod.snd := by
  have h1n : m1 < n := lt_trans h12 h2n
  set st := (uniformDraws R (3/10) 1 n s).2 with hstdef
  set radii := (uniformDraws R (3/10) 1 n s).1 with hradiidef
  set step := 2 * C.pi / (n : ℚ) with hstepdef
  rw [polarList_def, polarAux_get? R step radii n m1 0 st h1n,
      polarAux_get? R step radii n m2 0 st h2n]
  intro hcontra
  have heq : ((0 + m1 : Nat) : ℚ) * step +
      (-(3/10) + (3/5) * R.value st.seed (st.pos + m1)) =
      ((0 + m2 : Nat) : ℚ) * step +
      (-(3/10) + (3/5) * R.value st.seed (st.pos + m2)) := by
    simpa using hcontra
  have hv1 := hR st.seed (st.pos + m1)
  have hv2 := hR st.seed (st.pos + m2)
  have hn0 : (0 : ℚ) < (n : ℚ) := by
    have hn3 : 0 < n := by omega
    exact_mod_cast hn3
  have hn10q : (n : ℚ) ≤ 10 := by exact_mod_cast hn10
  have hstep : (3/5 : ℚ) ≤ step := by
    rw [hstepdef, le_div_iff₀ hn0]
    linarith
  have hm : (m1 : ℚ) + 1 ≤ (m2 : ℚ) := by
    have hmc := Nat.succ_le_of_lt h12
    exact_mod_cast hmc
  have hprod : step ≤ ((m2 : ℚ) - (m1 : ℚ)) * step := by
    have h1 : (1 : ℚ) ≤ (m2 : ℚ) - (m1 : ℚ) := by linarith
    nlinarith
  rw [sub_mul] at hprod
  push_cast at heq
  linarith [hv1.1, hv1.2, hv2.1, hv2.2]

theorem band_angles_distinct_witness :
    ((polarList Rhalf Cone 2 ⟨42, 0⟩).1.get? 0).map Prod.snd ≠
      ((polarList Rhalf Cone 2 ⟨42, 0⟩).1.get? 1).map Prod.snd :=
  band_angles_distinct Rhalf Cone 2 ⟨42, 0⟩ Rhalf_bounded (by norm_num [Cone])
    (by norm_num) (by norm_num) 0 1 (by norm_num) (by norm_num)

/-- One laid-out row of the eleven-company counterexample band. -/
def c4row (name : String) : PlotRow :=
  ⟨⟨name, "", "", bandA, "", ""⟩, bandA, 117/400, 0, some 0, some (117/400)⟩

/-- Concrete evaluation of the layout on the eleven-company band with the
collision stream: every row of the band lands at rank 0 plus 117/400. -/
lemma c4layout_eval :
    (create_bubble_chart_layout Rcex Cone cdf4 ⟨0, 0⟩).1 =
      [c4row "c0", c4row "c1", c4row "c2", c4row "c3", c4row "c4", c4row "c5",
       c4row "c6", c4row "c7", c4row "c8", c4row "c9", c4row "c10"] := by
  simp +decide [create_bubble_chart_layout, cdf4, c4row, initRow, layoutOver,
    scatterBand, jitterList, polarList, polarAux, uniformDraws, uniformDraw, jitterUpdate,
    finalizeRow, band_to_numeric, idxOf?, band_order, bandA, bandB, bandC, classifyBand,
    pyStrip, tokenSub, npSeed, Rcex, Cone, toCart, List.countP_cons, List.countP_nil]
  norm_num

/-- Evaluation of the polar pairs of the eleven-company band: entities 3 and
4 draw the identical polar pair (radius 13/20, angle 21/11), all draws lying
inside the documented uniform ranges. -/
lemma c4polar_eval :
    (polarList Rcex Cone 11 ⟨42, 0⟩).1.get? 3 = some (13/20, 21/11) ∧
    (polarList Rcex Cone 11 ⟨42, 0⟩).1.get? 4 = some (13/20, 21/11) := by
  constructor <;>
    (simp +decide [polarList, polarAux, uniformDraws, uniformDraw, Rcex, Cone]
     norm_num)

/-- C4 counterexample: with stream values inside the documented uniform
ranges, two distinct companies (c3 and c4) of one canonical band of eleven
draw the exact same polar pair, hence the exact same plotted
(x_position, y_jitter) point, for any cosine and sine whatsoever: the
collision-freedom invariant fails. -/
theorem band_collision_counterexample :
    RngBounded Rcex ∧ TrigBounded Cone ∧
    (polarList Rcex Cone 11 ⟨42, 0⟩).1.get? 3 = some (13/20, 21/11) ∧
    (polarList Rcex Cone 11 ⟨42, 0⟩).1.get? 4 = some (13/20, 21/11) ∧
    ((create_bubble_chart_layout Rcex Cone cdf4 ⟨0, 0⟩).1.get? 3).map plottedPoint =
      some (some (117/400), 0) ∧
    ((create_bubble_chart_layout Rcex Cone cdf4 ⟨0, 0⟩).1.get? 4).map plottedPoint =
      some (some (117/400), 0) ∧
    ((create_bubble_chart_layout Rcex Cone cdf4 ⟨0, 0⟩).1.get? 3).map
      (fun r => (r.company.entity_Legal_Name, r.band)) = some ("c3", bandA) ∧
    ((create_bubble_chart_layout Rcex Cone cdf4 ⟨0, 0⟩).1.get? 4).map
      (fun r => (r.company.entity_Legal_Name, r.band)) = some ("c4", bandA) ∧
    (create_bubble_chart_layout Rcex Cone cdf4 ⟨0, 0⟩).1.countP
      (fun r => r.band == bandA) = 11 := by
  refine ⟨Rcex_bounded, Cone_bounded, c4polar_eval.1, c4polar_eval.2, ?_, ?_, ?_, ?_, ?_⟩
  · rw [c4layout_eval]; rfl
  · rw [c4layout_eval]; rfl
  · rw [c4layout_eval]; rfl
  · rw [c4layout_eval]; rfl
  · rw [c4layout_eval]; decide
